import Mathlib

/-!
A verification development for the NewScale manipulator coordinate-resolution
core (`npc_ephys/newscale.py`).

The movement log is modelled as a list of rows; timestamps are integer seconds
since an arbitrary epoch, and a calendar date is the floor-division of a
timestamp by 86400 (seconds per day).  Text-encoded coordinate fields are
modelled as exact rationals, i.e. after the whitespace-trim and numeric parse
the source applies; device identifiers stay strings, since their surrounding
whitespace is semantically relevant to the grouping logic.  Fallible steps
return `Except ResolveError`.
-/

/-- One row of the NewScale movement log (`NEWSCALE_LOG_COLUMNS`). -/
structure MovementEvent where
  last_movement_dt : Int
  device_name : String
  x : ℚ
  y : ℚ
  z : ℚ
  x_virtual : ℚ
  y_virtual : ℚ
  z_virtual : ℚ
  deriving Repr, DecidableEq

/-- The static serial-number to probe-letter registry (`SERIAL_NUM_TO_PROBE_LETTER`),
as an association list in the source's dictionary order (NP.0 through NP.3). -/
def SERIAL_NUM_TO_PROBE_LETTER : List (String × String) :=
  [("SN32148", "A"), ("SN32142", "B"), ("SN32144", "C"), ("SN32149", "D"),
   ("SN24272", "D"), ("SN32135", "E"), ("SN24273", "F"),
   ("SN40911", "A"), ("SN40900", "B"), ("SN40912", "C"), ("SN40913", "D"),
   ("SN40914", "E"), ("SN40910", "F"),
   ("SN45356", "A"), ("SN45484", "B"), ("SN45485", "C"), ("SN45359", "D"),
   ("SN45482", "E"), ("SN45361", "F"),
   ("SN40906", "A"), ("SN40908", "B"), ("SN40907", "C"), ("SN41084", "D"),
   ("SN40903", "E"), ("SN40902", "F")]

/-- The fixed short-travel subset (`SHORT_TRAVEL_SERIAL_NUMBERS`). -/
def SHORT_TRAVEL_SERIAL_NUMBERS : List String :=
  ["SN32148", "SN32142", "SN32144", "SN32149", "SN32135", "SN24273"]

def SHORT_TRAVEL_RANGE : Int := 6000

def LONG_TRAVEL_RANGE : Int := 15000

/-- Errors the resolver can raise: `IndexError` for a log that does not cover
the experiment date, and the registry's `ValueError` for an unknown serial
number (the spec's `NoCoverageError` and `UnknownDeviceError`). -/
inductive ResolveError where
  | NoCoverageError : ResolveError
  | UnknownDeviceError : String → ResolveError
  deriving Repr, DecidableEq

/-- `get_z_travel`: travel range of a manipulator, failing on a serial number
that is not in the registry. -/
def get_z_travel (sn : String) : Except ResolveError Int :=
  if (SERIAL_NUM_TO_PROBE_LETTER.lookup sn).isNone then
    .error (.UnknownDeviceError sn)
  else if sn ∈ SHORT_TRAVEL_SERIAL_NUMBERS then
    .ok SHORT_TRAVEL_RANGE
  else
    .ok LONG_TRAVEL_RANGE

/-- `np.round(x, -2)`: round to the nearest multiple of 100, halves to the
even multiple.  Computed on the numerator/denominator representation of the
exact rational (`q / 100` has numerator `q.num` over denominator `100 * q.den`;
`f` is its floor and `r2` twice the remainder, so `r2 < d` means the
fractional part is below one half). -/
def round100 (q : ℚ) : Int :=
  let d : Int := 100 * (q.den : Int)
  let f : Int := Int.fdiv q.num d
  let r2 : Int := 2 * (q.num - f * d)
  100 * (if r2 < d then f
         else if d < r2 then f + 1
         else if f % 2 = 0 then f else f + 1)

/-- `is_z_inverted`: frequency-count the readings rounded to the nearest
multiple of 100; use the long-travel limit when it occurs at all, the
short-travel limit otherwise; report inverted when the limit value is
strictly more frequent than the value 0. -/
def is_z_inverted (z_values : List ℚ) : Bool :=
  let c := z_values.map round100
  let is_long_travel := decide (c.count LONG_TRAVEL_RANGE ≠ 0)
  let travel_range := if is_long_travel then LONG_TRAVEL_RANGE else SHORT_TRAVEL_RANGE
  decide (c.count 0 < c.count travel_range)

/-- `str.strip_chars()` with no argument: remove leading and trailing
whitespace.  Implemented on the character list so that it evaluates. -/
def stripChars (s : String) : String :=
  ⟨((s.data.dropWhile Char.isWhitespace).reverse.dropWhile Char.isWhitespace).reverse⟩

/-- Lexicographic order on character lists (the order polars sorts strings
by; our labels are ASCII, where byte order and codepoint order agree). -/
def charsLE : List Char → List Char → Bool
  | [], _ => true
  | _ :: _, [] => false
  | a :: as, b :: bs => if a < b then true else if b < a then false else charsLE as bs

/-- Ascending string comparison used by the final sort. -/
def strLE (a b : String) : Bool := charsLE a.data b.data

/-- Calendar date of a timestamp, as a day number (floor division by 86400). -/
def dayOf (t : Int) : Int := Int.fdiv t 86400

/-- The date-coverage guard of `get_newscale_coordinates`: the log is nonempty
and some event falls on the experiment date. -/
def coverageOk (log : List MovementEvent) (start : Int) : Bool :=
  !log.isEmpty && log.any fun e => decide (dayOf e.last_movement_dt = dayOf start)

/-- The events feeding the inversion detector: date strictly after the
experiment date minus 24 hours (`dt.date() > start.dt.date() - timedelta(hours=24)`). -/
def recentEvents (log : List MovementEvent) (start : Int) : List MovementEvent :=
  log.filter fun e => decide (dayOf start - 1 < dayOf e.last_movement_dt)

/-- The file-wide z-inversion flag: detector applied to the recent events' z values. -/
def zInvertedFlag (log : List MovementEvent) (start : Int) : Bool :=
  is_z_inverted ((recentEvents log start).map (·.z))

/-- `df.filter(movement < start.dt)`: events strictly before the reference time. -/
def priorEvents (log : List MovementEvent) (start : Int) : List MovementEvent :=
  log.filter fun e => decide (e.last_movement_dt < start)

/-- Append a group key unless already present (polars `group_by` key order:
first appearance). -/
def insertKey (ks : List String) (k : String) : List String :=
  if k ∈ ks then ks else ks ++ [k]

/-- The distinct raw `device_name` values of a list of events, in order of
first appearance: the keys of `group_by(serial_number)`. -/
def groupKeys (l : List MovementEvent) : List String :=
  l.foldl (fun ks e => insertKey ks e.device_name) []

/-- Of two events, the one a stable sort by `last_movement_dt` puts last. -/
def laterOf (best e : MovementEvent) : MovementEvent :=
  if best.last_movement_dt ≤ e.last_movement_dt then e else best

/-- `agg(pl.all().sort_by(movement).last())` on one group: the event a stable
sort by timestamp puts last, i.e. the last occurrence of the maximum. -/
def selectLast : List MovementEvent → Option MovementEvent
  | [] => none
  | e :: rest => some (rest.foldl laterOf e)

/-- One representative row per group of `group_by(serial_number)`. -/
def groupedEvents (log : List MovementEvent) (start : Int) : List MovementEvent :=
  (groupKeys (priorEvents log start)).filterMap fun k =>
    selectLast ((priorEvents log start).filter fun e => decide (e.device_name = k))

/-- `top_k(6, by=movement)`: the six rows with the greatest timestamps
(descending sort, then truncate). -/
def topK (k : Nat) (l : List MovementEvent) : List MovementEvent :=
  (List.insertionSort (fun a b => b.last_movement_dt ≤ a.last_movement_dt) l).take k

/-- The per-manipulator rows the resolver retains: last movement per raw
device name, capped at six. -/
def selectedEvents (log : List MovementEvent) (start : Int) : List MovementEvent :=
  topK 6 (groupedEvents log start)

/-- The retained rows after stripping the serial numbers' incidental
whitespace (`str.strip_chars()`), which happens only after grouping. -/
def trimmedEvents (log : List MovementEvent) (start : Int) : List MovementEvent :=
  (selectedEvents log start).map fun e => { e with device_name := stripChars e.device_name }

/-- The z-correction loop body over all retained rows: replace `z` by
`get_z_travel(device) - z`, failing at the first unknown serial number. -/
def correct_z_rows : List MovementEvent → Except ResolveError (List MovementEvent)
  | [] => .ok []
  | e :: rest =>
    match get_z_travel e.device_name with
    | .error err => .error err
    | .ok t =>
      match correct_z_rows rest with
      | .error err => .error err
      | .ok out => .ok ({ e with z := (t : ℚ) - e.z } :: out)

/-- The z-correction step: rewrite every z when the file-wide flag is set,
leave the rows untouched otherwise (no registry lookup happens then). -/
def correct_z (inverted : Bool) (rows : List MovementEvent) :
    Except ResolveError (List MovementEvent) :=
  if inverted then correct_z_rows rows else .ok rows

/-- `Series.replace` over the probe mapping: a registered serial number maps
to its probe label, any other value passes through unchanged. -/
def probe_label (sn : String) : String :=
  match SERIAL_NUM_TO_PROBE_LETTER.lookup sn with
  | some letter => "probe" ++ letter
  | none => sn

/-- One output row (`electrode_group_name`, trimmed serial, coordinates and
time of last movement relative to the recording start). -/
structure ResolvedRow where
  electrode_group_name : String
  last_movement_dt : Int
  device_name : String
  x : ℚ
  y : ℚ
  z : ℚ
  last_movement_time : Int
  deriving Repr, DecidableEq

/-- Assemble one output row from a retained (trimmed, z-corrected) event. -/
def toRow (start : Int) (e : MovementEvent) : ResolvedRow :=
  ⟨probe_label e.device_name, e.last_movement_dt, e.device_name,
   e.x, e.y, e.z, e.last_movement_dt - start⟩

/-- The comparison of the final sort: ascending by `electrode_group_name`. -/
def rowLE (a b : ResolvedRow) : Prop :=
  strLE a.electrode_group_name b.electrode_group_name = true

instance : DecidableRel rowLE := fun a b =>
  Bool.decEq (strLE a.electrode_group_name b.electrode_group_name) true

/-- `sort(pl.col("electrode_group_name"))`: ascending by probe label. -/
def sortRows (rows : List ResolvedRow) : List ResolvedRow :=
  List.insertionSort rowLE rows

/-- `get_newscale_coordinates`: the coordinate resolver.  Checks date
coverage, computes the file-wide inversion flag from the recent window,
selects the last movement before `start` per manipulator (capped at six),
trims serials, corrects z, labels, stamps relative time and sorts by label. -/
def get_newscale_coordinates (log : List MovementEvent) (start : Int) :
    Except ResolveError (List ResolvedRow) :=
  if coverageOk log start then
    match correct_z (zInvertedFlag log start) (trimmedEvents log start) with
    | .error err => .error err
    | .ok corrected => .ok (sortRows (corrected.map (toRow start)))
  else
    .error .NoCoverageError

/-- The recent-window rule as the specification words it, for comparison with
`recentEvents`: date within the preceding 24 hours of the reference date,
inclusive at reference date minus 24 hours, excluding dates beyond the
reference day. -/
def recentWindowClaimed (log : List MovementEvent) (start : Int) : List MovementEvent :=
  log.filter fun e =>
    decide (dayOf start - 1 ≤ dayOf e.last_movement_dt ∧ dayOf e.last_movement_dt ≤ dayOf start)

/-! ### Concrete logs used by the examples.  The reference instant 100000
falls on day 1 (86400 ≤ 100000 < 172800). -/

/-- A log row with fixed x, y and virtual coordinates. -/
def mkEvent (dt : Int) (name : String) (z : ℚ) : MovementEvent :=
  ⟨dt, name, 1, 2, z, 0, 0, 0⟩

/-- A serial number that is not in the registry, on the experiment day,
before the reference instant, with a z reading that keeps the file
non-inverted. -/
def c1Log : List MovementEvent := [mkEvent 90000 "SN99999" 3000]

/-- The row the resolver produces for `c1Log`: the unknown serial passes
through, its raw identifier standing in for a probe label. -/
def c1Row : ResolvedRow := ⟨"SN99999", 90000, "SN99999", 1, 2, 3000, -10000⟩

/-- An unregistered serial (with a leading space) whose z reading of 15000
makes the file-wide inversion flag true. -/
def w1Log : List MovementEvent := [mkEvent 90000 " SN99999" 15000]

/-- Two rows for the same manipulator whose names differ only by a leading
space. -/
def c2Log : List MovementEvent :=
  [mkEvent 90000 "SN32144" 3000, mkEvent 91000 " SN32144" 3000]

/-- One event on the day before the reference date and one on the day after
the reference date. -/
def c4Log : List MovementEvent :=
  [mkEvent 50000 "SN32144" 3000, mkEvent 200000 "SN32144" 3000]

/-- Two registered manipulators that share the probe letter D. -/
def c5Log : List MovementEvent :=
  [mkEvent 90000 "SN32149" 3000, mkEvent 91000 "SN24272" 3000]

/-- A one-row log for a registered short-travel manipulator. -/
def exampleLog : List MovementEvent := [mkEvent 90000 "SN32148" 3000]

/-- The single row the resolver produces for `exampleLog`. -/
def exampleRow : ResolvedRow := ⟨"probeA", 90000, "SN32148", 1, 2, 3000, -10000⟩

/-- A log whose only event is dated long before the reference date. -/
def w10Log : List MovementEvent := [mkEvent (-100000) "SN32148" 3000]

/-! ### Order lemmas for the label sort -/

theorem charsLE_total : ∀ a b : List Char, charsLE a b = true ∨ charsLE b a = true
  | [], _ => Or.inl rfl
  | _ :: _, [] => Or.inr rfl
  | a :: as, b :: bs => by
    rcases lt_trichotomy a b with h | rfl | h
    · left; simp [charsLE, if_pos h]
    · rcases charsLE_total as bs with ih | ih
      · left; simp [charsLE, lt_irrefl, ih]
      · right; simp [charsLE, lt_irrefl, ih]
    · right; simp [charsLE, if_pos h]

theorem charsLE_trans : ∀ {a b c : List Char},
    charsLE a b = true → charsLE b c = true → charsLE a c = true
  | [], _, _, _, _ => rfl
  | _ :: _, [], _, h1, _ => by simp [charsLE] at h1
  | _ :: _, _ :: _, [], _, h2 => by simp [charsLE] at h2
  | a :: as, b :: bs, c :: cs, h1, h2 => by
    simp only [charsLE] at h1 h2 ⊢
    rcases lt_trichotomy a b with hab | rfl | hab
    · rw [if_pos hab] at h1
      rcases lt_trichotomy b c with hbc | rfl | hbc
      · rw [if_pos (lt_trans hab hbc)]
      · rw [if_pos hab]
      · rw [if_neg (lt_asymm hbc), if_pos hbc] at h2
        exact absurd h2 Bool.false_ne_true
    · rw [if_neg (lt_irrefl a), if_neg (lt_irrefl a)] at h1
      rcases lt_trichotomy a c with hac | rfl | hac
      · rw [if_pos hac]
      · rw [if_neg (lt_irrefl a), if_neg (lt_irrefl a)] at h2 ⊢
        exact charsLE_trans h1 h2
      · rw [if_neg (lt_asymm hac), if_pos hac] at h2
        exact absurd h2 Bool.false_ne_true
    · rw [if_neg (lt_asymm hab), if_pos hab] at h1
      exact absurd h1 Bool.false_ne_true

theorem sortRows_sorted (rows : List ResolvedRow) : List.Sorted rowLE (sortRows rows) := by
  haveI : IsTotal ResolvedRow rowLE := ⟨fun a b => charsLE_total _ _⟩
  haveI : IsTrans ResolvedRow rowLE := ⟨fun _ _ _ h1 h2 => charsLE_trans h1 h2⟩
  exact List.sorted_insertionSort rowLE rows

theorem sortRows_perm (rows : List ResolvedRow) : List.Perm (sortRows rows) rows :=
  List.perm_insertionSort rowLE rows

/-! ### The per-group maximum selection -/

theorem foldl_laterOf_mem : ∀ (l : List MovementEvent) (init : MovementEvent),
    l.foldl laterOf init = init ∨ l.foldl laterOf init ∈ l
  | [], _ => Or.inl rfl
  | e :: rest, init => by
    simp only [List.foldl_cons]
    rcases foldl_laterOf_mem rest (laterOf init e) with h | h
    · rw [h]; unfold laterOf
      split
      · exact Or.inr (List.mem_cons_self _ _)
      · exact Or.inl rfl
    · exact Or.inr (List.mem_cons_of_mem _ h)

theorem le_foldl_laterOf : ∀ (l : List MovementEvent) (init : MovementEvent),
    init.last_movement_dt ≤ (l.foldl laterOf init).last_movement_dt
  | [], _ => le_refl _
  | e :: rest, init => by
    simp only [List.foldl_cons]
    refine le_trans ?_ (le_foldl_laterOf rest (laterOf init e))
    unfold laterOf; split
    · assumption
    · exact le_refl _

theorem mem_le_foldl_laterOf : ∀ (l : List MovementEvent) (init x : MovementEvent),
    x ∈ l → x.last_movement_dt ≤ (l.foldl laterOf init).last_movement_dt
  | [], _, x, hx => absurd hx (List.not_mem_nil x)
  | e :: rest, init, x, hx => by
    simp only [List.foldl_cons]
    rcases List.mem_cons.mp hx with rfl | hx'
    · refine le_trans ?_ (le_foldl_laterOf rest (laterOf init x))
      unfold laterOf; split
      · exact le_refl _
      · omega
    · exact mem_le_foldl_laterOf rest (laterOf init e) x hx'

theorem selectLast_mem {l : List MovementEvent} {e : MovementEvent}
    (h : selectLast l = some e) : e ∈ l := by
  cases l with
  | nil => simp [selectLast] at h
  | cons a rest =>
    simp only [selectLast, Option.some.injEq] at h
    subst h
    rcases foldl_laterOf_mem rest a with h | h
    · rw [h]; exact List.mem_cons_self _ _
    · exact List.mem_cons_of_mem _ h

theorem selectLast_max {l : List MovementEvent} {e : MovementEvent}
    (h : selectLast l = some e) :
    ∀ x ∈ l, x.last_movement_dt ≤ e.last_movement_dt := by
  cases l with
  | nil => simp [selectLast] at h
  | cons a rest =>
    simp only [selectLast, Option.some.injEq] at h
    subst h
    intro x hx
    rcases List.mem_cons.mp hx with rfl | hx'
    · exact le_foldl_laterOf rest x
    · exact mem_le_foldl_laterOf rest a x hx'

/-! ### Group keys -/

theorem foldl_insertKey_nodup : ∀ (l : List MovementEvent) (ks : List String),
    ks.Nodup → (l.foldl (fun ks e => insertKey ks e.device_name) ks).Nodup
  | [], _, h => h
  | e :: rest, ks, h => by
    simp only [List.foldl_cons]
    refine foldl_insertKey_nodup rest _ ?_
    unfold insertKey
    split
    · exact h
    · rw [List.nodup_append]
      refine ⟨h, List.nodup_singleton _, ?_⟩
      intro x hx hx'
      simp only [List.mem_singleton] at hx'
      subst hx'
      exact absurd hx (by assumption)

theorem mem_foldl_insertKey : ∀ (l : List MovementEvent) (ks : List String) (k : String),
    k ∈ l.foldl (fun ks e => insertKey ks e.device_name) ks →
    k ∈ ks ∨ ∃ e ∈ l, e.device_name = k
  | [], _, _, h => Or.inl h
  | e :: rest, ks, k, h => by
    simp only [List.foldl_cons] at h
    rcases mem_foldl_insertKey rest _ k h with h' | ⟨e', he', rfl⟩
    · unfold insertKey at h'
      split at h'
      · exact Or.inl h'
      · rcases List.mem_append.mp h' with h'' | h''
        · exact Or.inl h''
        · simp only [List.mem_singleton] at h''
          subst h''
          exact Or.inr ⟨e, List.mem_cons_self _ _, rfl⟩
    · exact Or.inr ⟨e', List.mem_cons_of_mem _ he', rfl⟩

theorem groupKeys_nodup (l : List MovementEvent) : (groupKeys l).Nodup :=
  foldl_insertKey_nodup l [] List.nodup_nil

theorem mem_groupKeys {l : List MovementEvent} {k : String} (h : k ∈ groupKeys l) :
    ∃ e ∈ l, e.device_name = k := by
  rcases mem_foldl_insertKey l [] k h with h' | h'
  · exact absurd h' (List.not_mem_nil k)
  · exact h'

theorem groupKeys_length_le_dedup (l : List MovementEvent) :
    (groupKeys l).length ≤ (l.map (·.device_name)).dedup.length := by
  have hsub : (groupKeys l).toFinset ⊆ (l.map (·.device_name)).toFinset := by
    intro k hk
    rcases mem_groupKeys (List.mem_toFinset.mp hk) with ⟨e, he, rfl⟩
    exact List.mem_toFinset.mpr (List.mem_map_of_mem _ he)
  calc (groupKeys l).length
      = (groupKeys l).toFinset.card :=
        (List.toFinset_card_of_nodup (groupKeys_nodup l)).symm
    _ ≤ (l.map (·.device_name)).toFinset.card := Finset.card_le_card hsub
    _ = (l.map (·.device_name)).dedup.length := List.card_toFinset _

/-! ### Membership through the pipeline -/

theorem mem_priorEvents {log : List MovementEvent} {start : Int} {e : MovementEvent}
    (h : e ∈ priorEvents log start) : e ∈ log ∧ e.last_movement_dt < start := by
  have h' := List.mem_filter.mp h
  exact ⟨h'.1, by simpa using h'.2⟩

theorem mem_recentEvents {log : List MovementEvent} {start : Int} {e : MovementEvent} :
    e ∈ recentEvents log start ↔ e ∈ log ∧ dayOf start - 1 < dayOf e.last_movement_dt := by
  unfold recentEvents
  rw [List.mem_filter]
  simp

theorem mem_groupedEvents {log : List MovementEvent} {start : Int} {e : MovementEvent}
    (he : e ∈ groupedEvents log start) :
    e ∈ priorEvents log start ∧
      ∀ e' ∈ priorEvents log start, e'.device_name = e.device_name →
        e'.last_movement_dt ≤ e.last_movement_dt := by
  unfold groupedEvents at he
  rcases List.mem_filterMap.mp he with ⟨k, _, hsel⟩
  have hmem := selectLast_mem hsel
  have hmax := selectLast_max hsel
  have hedev : e.device_name = k := by
    have h' := List.mem_filter.mp hmem
    simpa using h'.2
  refine ⟨(List.mem_filter.mp hmem).1, ?_⟩
  intro e' he' hdev
  exact hmax e' (List.mem_filter.mpr ⟨he', by simp [hdev, hedev]⟩)

theorem selectedEvents_subset (log : List MovementEvent) (start : Int) :
    selectedEvents log start ⊆ groupedEvents log start := by
  intro e he
  unfold selectedEvents topK at he
  exact (List.perm_insertionSort _ _).mem_iff.mp (List.take_subset _ _ he)

theorem selectedEvents_length (log : List MovementEvent) (start : Int) :
    (selectedEvents log start).length = min 6 (groupedEvents log start).length := by
  unfold selectedEvents topK
  rw [List.length_take, (List.perm_insertionSort _ _).length_eq]

theorem groupedEvents_length_le (log : List MovementEvent) (start : Int) :
    (groupedEvents log start).length ≤ (groupKeys (priorEvents log start)).length :=
  List.length_filterMap_le _ _

theorem mem_trimmedEvents {log : List MovementEvent} {start : Int} {e : MovementEvent}
    (h : e ∈ trimmedEvents log start) :
    ∃ e0 ∈ selectedEvents log start,
      e = { e0 with device_name := stripChars e0.device_name } := by
  rcases List.mem_map.mp h with ⟨e0, he0, rfl⟩
  exact ⟨e0, he0, rfl⟩

/-! ### The z-correction step -/

theorem correct_z_rows_length : ∀ {l out : List MovementEvent},
    correct_z_rows l = .ok out → out.length = l.length
  | [], _, h => by
    simp only [correct_z_rows, Except.ok.injEq] at h
    subst h; rfl
  | e :: rest, out, h => by
    unfold correct_z_rows at h
    cases hz : get_z_travel e.device_name with
    | error err => rw [hz] at h; simp at h
    | ok t =>
      rw [hz] at h
      cases hr : correct_z_rows rest with
      | error err => rw [hr] at h; simp at h
      | ok out' =>
        rw [hr] at h
        simp only [Except.ok.injEq] at h
        subst h
        simp [correct_z_rows_length hr]

theorem correct_z_rows_mem_dt : ∀ {l out : List MovementEvent},
    correct_z_rows l = .ok out →
    ∀ e' ∈ out, ∃ e ∈ l, e'.last_movement_dt = e.last_movement_dt
  | [], _, h => by
    simp only [correct_z_rows, Except.ok.injEq] at h
    subst h
    intro e' he'
    exact absurd he' (List.not_mem_nil e')
  | e :: rest, out, h => by
    unfold correct_z_rows at h
    cases hz : get_z_travel e.device_name with
    | error err => rw [hz] at h; simp at h
    | ok t =>
      rw [hz] at h
      cases hr : correct_z_rows rest with
      | error err => rw [hr] at h; simp at h
      | ok out' =>
        rw [hr] at h
        simp only [Except.ok.injEq] at h
        subst h
        intro e' he'
        rcases List.mem_cons.mp he' with rfl | he''
        · exact ⟨e, List.mem_cons_self _ _, rfl⟩
        · rcases correct_z_rows_mem_dt hr e' he'' with ⟨e0, he0, hdt⟩
          exact ⟨e0, List.mem_cons_of_mem _ he0, hdt⟩

theorem correct_z_rows_error_shape : ∀ {l : List MovementEvent} {err : ResolveError},
    correct_z_rows l = .error err →
    ∃ sn, err = .UnknownDeviceError sn ∧ SERIAL_NUM_TO_PROBE_LETTER.lookup sn = none
  | [], _, h => by simp [correct_z_rows] at h
  | e :: rest, err, h => by
    unfold correct_z_rows at h
    cases hz : get_z_travel e.device_name with
    | error err0 =>
      rw [hz] at h
      simp only [Except.error.injEq] at h
      subst h
      unfold get_z_travel at hz
      split at hz
      · simp only [Except.error.injEq] at hz
        subst hz
        exact ⟨e.device_name, rfl, Option.isNone_iff_eq_none.mp (by assumption)⟩
      · split at hz <;> simp at hz
    | ok t =>
      rw [hz] at h
      cases hr : correct_z_rows rest with
      | error err0 =>
        rw [hr] at h
        simp only [Except.error.injEq] at h
        subst h
        exact correct_z_rows_error_shape hr
      | ok out => rw [hr] at h; simp at h

theorem correct_z_rows_error_of_unknown : ∀ {l : List MovementEvent} {e : MovementEvent},
    e ∈ l → SERIAL_NUM_TO_PROBE_LETTER.lookup e.device_name = none →
    ∃ err, correct_z_rows l = .error err
  | [], e, he, _ => absurd he (List.not_mem_nil e)
  | a :: rest, e, he, hu => by
    rcases List.mem_cons.mp he with rfl | he'
    · refine ⟨.UnknownDeviceError e.device_name, ?_⟩
      unfold correct_z_rows get_z_travel
      rw [hu]
      simp
    · rcases correct_z_rows_error_of_unknown he' hu with ⟨err, herr⟩
      cases hz : get_z_travel a.device_name with
      | error err0 =>
        refine ⟨err0, ?_⟩
        unfold correct_z_rows
        rw [hz]
      | ok t =>
        refine ⟨err, ?_⟩
        unfold correct_z_rows
        rw [hz, herr]

theorem correct_z_ok_length {inv : Bool} {l out : List MovementEvent}
    (h : correct_z inv l = .ok out) : out.length = l.length := by
  unfold correct_z at h
  split at h
  · exact correct_z_rows_length h
  · simp only [Except.ok.injEq] at h; subst h; rfl

theorem correct_z_ok_mem_dt {inv : Bool} {l out : List MovementEvent}
    (h : correct_z inv l = .ok out) :
    ∀ e' ∈ out, ∃ e ∈ l, e'.last_movement_dt = e.last_movement_dt := by
  unfold correct_z at h
  split at h
  · exact correct_z_rows_mem_dt h
  · simp only [Except.ok.injEq] at h
    subst h
    exact fun e' he' => ⟨e', he', rfl⟩

theorem correct_z_error_shape {inv : Bool} {l : List MovementEvent} {err : ResolveError}
    (h : correct_z inv l = .error err) :
    ∃ sn, err = .UnknownDeviceError sn ∧ SERIAL_NUM_TO_PROBE_LETTER.lookup sn = none := by
  unfold correct_z at h
  split at h
  · exact correct_z_rows_error_shape h
  · simp at h

/-! ### Unfolding a successful resolution -/

theorem resolve_ok_elim {log : List MovementEvent} {start : Int} {rows : List ResolvedRow}
    (h : get_newscale_coordinates log start = .ok rows) :
    ∃ corrected,
      correct_z (zInvertedFlag log start) (trimmedEvents log start) = .ok corrected ∧
        rows = sortRows (corrected.map (toRow start)) := by
  unfold get_newscale_coordinates at h
  split at h
  · cases hc : correct_z (zInvertedFlag log start) (trimmedEvents log start) with
    | error err => rw [hc] at h; simp at h
    | ok corrected =>
      rw [hc] at h
      simp only [Except.ok.injEq] at h
      exact ⟨corrected, rfl, h.symm⟩
  · simp at h

theorem coverage_false_iff (log : List MovementEvent) (start : Int) :
    coverageOk log start = false ↔
      (log = [] ∨ ∀ e ∈ log, dayOf e.last_movement_dt ≠ dayOf start) := by
  unfold coverageOk
  rcases hlog : log with _ | ⟨a, rest⟩
  · simp
  · simp [List.any_eq_true]

/-! ### The rounding step of the inversion detector -/

theorem round100_mul (q : ℚ) : ∃ k : Int, round100 q = 100 * k ∧
    2 * |q.num - k * (100 * (q.den : Int))| ≤ 100 * (q.den : Int) := by
  unfold round100
  dsimp only
  set d : Int := 100 * (q.den : Int) with hd_def
  set f : Int := Int.fdiv q.num d with hf_def
  set r2 : Int := 2 * (q.num - f * d) with hr2_def
  have hden : (0:Int) < (q.den : Int) := by exact_mod_cast q.pos
  have hd : 0 < d := by rw [hd_def]; omega
  have hfd : f = q.num / d := by rw [hf_def, Int.fdiv_eq_ediv _ (le_of_lt hd)]
  have hmod : q.num - f * d = q.num % d := by rw [hfd, Int.emod_def]; ring
  have h0 : 0 ≤ q.num % d := Int.emod_nonneg _ (ne_of_gt hd)
  have h1 : q.num % d < d := Int.emod_lt_of_pos _ hd
  have hexp : q.num - (f + 1) * d = (q.num - f * d) - d := by ring
  have hcase : ∀ k' : Int, (k' = f ∧ r2 ≤ d) ∨ (k' = f + 1 ∧ d ≤ r2) →
      2 * |q.num - k' * d| ≤ d := by
    intro k' hk'
    rcases abs_cases (q.num - k' * d) with ⟨habs, _⟩ | ⟨habs, _⟩ <;>
      rw [habs] <;> rcases hk' with ⟨rfl, h⟩ | ⟨rfl, h⟩ <;> omega
  split_ifs with hc1 hc2 hc3
  · exact ⟨f, rfl, hcase f (Or.inl ⟨rfl, le_of_lt hc1⟩)⟩
  · exact ⟨f + 1, rfl, hcase (f + 1) (Or.inr ⟨rfl, le_of_lt hc2⟩)⟩
  · exact ⟨f, rfl, hcase f (Or.inl ⟨rfl, by omega⟩)⟩
  · exact ⟨f + 1, rfl, hcase (f + 1) (Or.inr ⟨rfl, by omega⟩)⟩

theorem round100_dist (q : ℚ) : |q - (round100 q : ℚ)| ≤ 50 := by
  rcases round100_mul q with ⟨k, hk, hbound⟩
  rw [hk]
  have hdenpos : (0:ℚ) < (q.den : ℚ) := by exact_mod_cast q.pos
  have hden0 : ((q.den : ℚ)) ≠ 0 := ne_of_gt hdenpos
  have hmul : q * (q.den : ℚ) = (q.num : ℚ) := by
    calc q * (q.den : ℚ) = ((q.num : ℚ) / (q.den : ℚ)) * (q.den : ℚ) := by
          rw [Rat.num_div_den]
      _ = (q.num : ℚ) := div_mul_cancel₀ _ hden0
  have key : (q - ((100 * k : Int) : ℚ)) * (q.den : ℚ)
      = ((q.num - k * (100 * (q.den : Int)) : Int) : ℚ) := by
    push_cast
    rw [sub_mul, hmul]
    ring
  have habs : |q - ((100 * k : Int) : ℚ)| * (q.den : ℚ) ≤ 50 * (q.den : ℚ) := by
    rw [← abs_of_pos hdenpos, ← abs_mul, key, abs_of_pos hdenpos]
    have hq : (2:ℚ) * |((q.num - k * (100 * (q.den : Int)) : Int) : ℚ)|
        ≤ 100 * (q.den : ℚ) := by
      rw [← Int.cast_abs]
      exact_mod_cast hbound
    linarith
  exact (mul_le_mul_right hdenpos).mp habs

theorem round100_mod (q : ℚ) : round100 q % 100 = 0 := by
  unfold round100
  dsimp only
  exact Int.mul_emod_right 100 _

/-! ### The claims -/

/-- C3: `is_z_inverted` rounds every reading to the nearest multiple of 100
(the result is a multiple of 100 within 50 of the reading), uses 15000 as the
limit when 15000 appears among the rounded values and 6000 otherwise, and
returns true exactly when the count of the limit value strictly exceeds the
count of the value 0; in particular `is_z_inverted [0, 3000, 3000, 0] = false`
and `is_z_inverted [15000, 3000, 3000, 15000] = true`. -/
theorem c3_is_z_inverted_spec :
    (∀ q : ℚ, round100 q % 100 = 0 ∧ |q - (round100 q : ℚ)| ≤ 50) ∧
    (∀ zs : List ℚ,
      is_z_inverted zs = true ↔
        (zs.map round100).count 0 <
          (zs.map round100).count
            (if (15000 : Int) ∈ zs.map round100 then 15000 else 6000)) ∧
    is_z_inverted [0, 3000, 3000, 0] = false ∧
    is_z_inverted [15000, 3000, 3000, 15000] = true := by
  refine ⟨fun q => ⟨round100_mod q, round100_dist q⟩, fun zs => ?_, by decide, by decide⟩
  by_cases hm : (15000 : Int) ∈ zs.map round100
  · have hcount : (zs.map round100).count 15000 ≠ 0 := by
      simpa [Ne, List.count_eq_zero] using hm
    simp [is_z_inverted, LONG_TRAVEL_RANGE, SHORT_TRAVEL_RANGE, hcount, hm]
  · have hcount : (zs.map round100).count 15000 = 0 := List.count_eq_zero.mpr hm
    simp [is_z_inverted, LONG_TRAVEL_RANGE, SHORT_TRAVEL_RANGE, hcount, hm]

/-- C7: `get_z_travel` returns 6000 for `SN32144`, 15000 for `SN40911`, fails
with `UnknownDeviceError` on an unregistered identifier, and for every
registered identifier returns 6000 exactly on the short-travel subset and
15000 otherwise. -/
theorem c7_get_z_travel_spec :
    get_z_travel "SN32144" = .ok 6000 ∧
    get_z_travel "SN40911" = .ok 15000 ∧
    get_z_travel "unknown-id" = .error (.UnknownDeviceError "unknown-id") ∧
    ∀ sn : String, (SERIAL_NUM_TO_PROBE_LETTER.lookup sn).isSome = true →
      get_z_travel sn =
        .ok (if sn ∈ SHORT_TRAVEL_SERIAL_NUMBERS then 6000 else 15000) := by
  refine ⟨by rfl, by rfl, by rfl, fun sn hsn => ?_⟩
  unfold get_z_travel
  have hnn : ¬ ((SERIAL_NUM_TO_PROBE_LETTER.lookup sn).isNone = true) := by
    rw [Option.isNone_iff_eq_none]
    intro hnone
    rw [hnone] at hsn
    simp at hsn
  rw [if_neg hnn]
  split_ifs <;> rfl

/-- C10: on an empty collection of readings `is_z_inverted` returns false
(the 0-vs-limit comparison is a 0-to-0 tie), so a log with no events in the
recent window yields a non-inverted file-wide flag rather than an error. -/
theorem c10_empty_not_inverted (log : List MovementEvent) (start : Int)
    (h : recentEvents log start = []) :
    zInvertedFlag log start = false ∧ is_z_inverted [] = false := by
  constructor
  · unfold zInvertedFlag
    rw [h]
    rfl
  · rfl

/-- C10 witness: a log whose only event is far in the past has an empty recent
window and a non-inverted flag. -/
theorem c10_witness :
    zInvertedFlag w10Log 100000 = false ∧ is_z_inverted [] = false :=
  c10_empty_not_inverted w10Log 100000 (by rfl)

/-- C6: the resolver fails with `NoCoverageError` exactly when the log is
empty or no event's date equals the reference date; in particular it does so
on the empty log. -/
theorem c6_nocoverage_iff :
    (∀ (log : List MovementEvent) (start : Int),
        get_newscale_coordinates log start = .error .NoCoverageError ↔
          (log = [] ∨ ∀ e ∈ log, dayOf e.last_movement_dt ≠ dayOf start)) ∧
    get_newscale_coordinates [] 0 = .error .NoCoverageError := by
  refine ⟨fun log start => ?_, by rfl⟩
  cases hcov : coverageOk log start with
  | false =>
    have hrhs := (coverage_false_iff log start).mp hcov
    have hlhs : get_newscale_coordinates log start = .error .NoCoverageError := by
      unfold get_newscale_coordinates
      rw [hcov]
      rfl
    exact iff_of_true hlhs hrhs
  | true =>
    have hrhs : ¬ (log = [] ∨ ∀ e ∈ log, dayOf e.last_movement_dt ≠ dayOf start) := by
      intro hr
      rw [← coverage_false_iff] at hr
      rw [hcov] at hr
      exact absurd hr (by simp)
    have hlhs : ¬ get_newscale_coordinates log start = .error .NoCoverageError := by
      unfold get_newscale_coordinates
      cases hc : correct_z (zInvertedFlag log start) (trimmedEvents log start) with
      | error err =>
        rcases correct_z_error_shape hc with ⟨sn, rfl, _⟩
        simp [hcov, hc]
      | ok corrected => simp [hcov, hc]
    exact iff_of_false hlhs hrhs

/-- C4 counterexample: the sample fed to the detector is not the claimed
24-hour window.  At reference instant 100000 (day 1), the event dated day 0
(reference date minus 24 hours, which the claim includes) is excluded, and the
event dated day 2 (beyond the reference day, which the claim excludes) is
included. -/
theorem c4_counterexample :
    recentEvents c4Log 100000 = [mkEvent 200000 "SN32144" 3000] ∧
    recentWindowClaimed c4Log 100000 = [mkEvent 50000 "SN32144" 3000] ∧
    dayOf 200000 = dayOf 100000 + 1 ∧
    dayOf 50000 = dayOf 100000 - 1 ∧
    mkEvent 50000 "SN32144" 3000 ∈ c4Log := ⟨rfl, rfl, rfl, rfl, by decide⟩

/-- C4 amended: the recent-window sample consists of exactly the events of the
log whose date is strictly after the reference date minus 24 hours —
equivalently, on or after the reference date — with no upper bound, so events
dated beyond the reference day are included; the detector is fed exactly these
events' z-values. -/
theorem c4_recent_window_amended :
    (∀ (log : List MovementEvent) (start : Int) (e : MovementEvent),
        e ∈ recentEvents log start ↔
          e ∈ log ∧ dayOf start ≤ dayOf e.last_movement_dt) ∧
    ∀ (log : List MovementEvent) (start : Int),
      zInvertedFlag log start = is_z_inverted ((recentEvents log start).map (·.z)) := by
  refine ⟨fun log start e => ?_, fun _ _ => rfl⟩
  rw [mem_recentEvents]
  constructor
  · exact fun h => ⟨h.1, by omega⟩
  · exact fun h => ⟨h.1, by omega⟩

/-- C1 counterexample: with the file-wide inversion flag false, a selected
device identifier that is not in the registry does not make the resolver fail;
the row passes through into the output with the raw identifier standing in
for a probe label. -/
theorem c1_counterexample :
    get_newscale_coordinates c1Log 100000 = .ok [c1Row] ∧
    SERIAL_NUM_TO_PROBE_LETTER.lookup "SN99999" = none ∧
    c1Row.device_name = "SN99999" ∧
    c1Row.electrode_group_name = "SN99999" ∧
    zInvertedFlag c1Log 100000 = false := ⟨rfl, rfl, rfl, rfl, rfl⟩

/-- C1 amended: the resolver fails with `UnknownDeviceError` on an
unrecognized selected (whitespace-trimmed) device identifier when the
file-wide z-inversion flag is true; when the flag is false the registry is
never consulted and the unrecognized device passes through into the output. -/
theorem c1_unknown_device_amended (log : List MovementEvent) (start : Int)
    (hcov : coverageOk log start = true)
    (hinv : zInvertedFlag log start = true)
    (e : MovementEvent) (he : e ∈ trimmedEvents log start)
    (hu : SERIAL_NUM_TO_PROBE_LETTER.lookup e.device_name = none) :
    ∃ sn, get_newscale_coordinates log start = .error (.UnknownDeviceError sn) ∧
      SERIAL_NUM_TO_PROBE_LETTER.lookup sn = none := by
  rcases correct_z_rows_error_of_unknown he hu with ⟨err, herr⟩
  rcases correct_z_rows_error_shape herr with ⟨sn, rfl, hsn⟩
  refine ⟨sn, ?_, hsn⟩
  unfold get_newscale_coordinates correct_z
  simp [hcov, hinv, herr]

/-- C1 witness: a log whose one event has serial " SN99999" (unregistered
after trimming) and z reading 15000 (making the file inverted) is rejected
with `UnknownDeviceError`. -/
theorem c1_amended_witness :
    ∃ sn, get_newscale_coordinates w1Log 100000 = .error (.UnknownDeviceError sn) ∧
      SERIAL_NUM_TO_PROBE_LETTER.lookup sn = none :=
  c1_unknown_device_amended w1Log 100000 (by rfl) (by rfl)
    (mkEvent 90000 "SN99999" 15000) (by decide) (by rfl)

/-- C2 counterexample: grouping is by the raw, untrimmed `device_name`; two
rows differing only in a leading space form two groups and yield two output
rows for the same trimmed identifier, instead of falling in one group. -/
theorem c2_counterexample :
    get_newscale_coordinates c2Log 100000 =
      .ok [⟨"probeC", 91000, "SN32144", 1, 2, 3000, -9000⟩,
           ⟨"probeC", 90000, "SN32144", 1, 2, 3000, -10000⟩] ∧
    groupKeys (priorEvents c2Log 100000) = ["SN32144", " SN32144"] ∧
    stripChars " SN32144" = "SN32144" := ⟨rfl, rfl, rfl⟩

/-- C2 amended: events are filtered to those strictly before the reference
time and grouped by the raw (untrimmed) device identifier — whitespace is
stripped only after selection — and within each raw group the event with the
maximum timestamp is selected; every selected event comes from a qualifying
event, so a device with no qualifying events is absent from the output. -/
theorem c2_selection_amended (log : List MovementEvent) (start : Int)
    (e : MovementEvent) (he : e ∈ selectedEvents log start) :
    e ∈ priorEvents log start ∧ e.last_movement_dt < start ∧
      ∀ e' ∈ priorEvents log start, e'.device_name = e.device_name →
        e'.last_movement_dt ≤ e.last_movement_dt := by
  have hg := mem_groupedEvents (selectedEvents_subset log start he)
  exact ⟨hg.1, (mem_priorEvents hg.1).2, hg.2⟩

/-- C2 witness: the selection property at a concrete one-event log. -/
theorem c2_amended_witness :
    mkEvent 90000 "SN32148" 3000 ∈ priorEvents exampleLog 100000 ∧
    (mkEvent 90000 "SN32148" 3000).last_movement_dt < 100000 ∧
    ∀ e' ∈ priorEvents exampleLog 100000,
      e'.device_name = (mkEvent 90000 "SN32148" 3000).device_name →
        e'.last_movement_dt ≤ (mkEvent 90000 "SN32148" 3000).last_movement_dt :=
  c2_selection_amended exampleLog 100000 (mkEvent 90000 "SN32148" 3000) (by decide)

/-- C5 counterexample: the registry maps both SN32149 and SN24272 to probe
letter D, so a successful resolution can carry the label `probeD` twice — the
labels are not pairwise distinct. -/
theorem c5_counterexample :
    get_newscale_coordinates c5Log 100000 =
      .ok [⟨"probeD", 91000, "SN24272", 1, 2, 3000, -9000⟩,
           ⟨"probeD", 90000, "SN32149", 1, 2, 3000, -10000⟩] ∧
    SERIAL_NUM_TO_PROBE_LETTER.lookup "SN32149" = some "D" ∧
    SERIAL_NUM_TO_PROBE_LETTER.lookup "SN24272" = some "D" := ⟨rfl, rfl, rfl⟩

/-- C5 amended: whenever the resolver succeeds, the output rows are sorted
ascending by logical probe label; the labels need not be pairwise distinct,
since distinct device identifiers may share a probe letter. -/
theorem c5_sorted_amended (log : List MovementEvent) (start : Int)
    (rows : List ResolvedRow) (h : get_newscale_coordinates log start = .ok rows) :
    List.Sorted rowLE rows := by
  rcases resolve_ok_elim h with ⟨corrected, _, rfl⟩
  exact sortRows_sorted _

/-- C5 witness: the sorted-output property at a concrete one-event log. -/
theorem c5_amended_witness : List.Sorted rowLE [exampleRow] :=
  c5_sorted_amended exampleLog 100000 [exampleRow] (by rfl)

/-- C8: whenever the resolver succeeds, the number of output rows is at most
6 and at most the number of distinct device identifiers (as they appear in
the log) having at least one event strictly before the reference time. -/
theorem c8_row_count (log : List MovementEvent) (start : Int)
    (rows : List ResolvedRow) (h : get_newscale_coordinates log start = .ok rows) :
    rows.length ≤ 6 ∧
      rows.length ≤ ((priorEvents log start).map (·.device_name)).dedup.length := by
  rcases resolve_ok_elim h with ⟨corrected, hc, rfl⟩
  have h1 : (sortRows (corrected.map (toRow start))).length = corrected.length := by
    rw [(sortRows_perm _).length_eq, List.length_map]
  have h2 : corrected.length = (trimmedEvents log start).length := correct_z_ok_length hc
  have h3 : (trimmedEvents log start).length = (selectedEvents log start).length :=
    List.length_map _ _
  have h4 := selectedEvents_length log start
  have h5 := groupedEvents_length_le log start
  have h6 := groupKeys_length_le_dedup (priorEvents log start)
  constructor <;> omega

/-- C8 witness: the row-count bounds at a concrete one-event log. -/
theorem c8_witness :
    ([exampleRow] : List ResolvedRow).length ≤ 6 ∧
    ([exampleRow] : List ResolvedRow).length ≤
      ((priorEvents exampleLog 100000).map (·.device_name)).dedup.length :=
  c8_row_count exampleLog 100000 [exampleRow] (by rfl)

/-- C9: whenever the resolver succeeds, every output row's elapsed-seconds
field (movement timestamp minus reference time) is at most 0. -/
theorem c9_elapsed_nonpos (log : List MovementEvent) (start : Int)
    (rows : List ResolvedRow) (h : get_newscale_coordinates log start = .ok rows)
    (r : ResolvedRow) (hr : r ∈ rows) :
    r.last_movement_time ≤ 0 := by
  rcases resolve_ok_elim h with ⟨corrected, hc, rfl⟩
  have hr' : r ∈ corrected.map (toRow start) := (sortRows_perm _).mem_iff.mp hr
  rcases List.mem_map.mp hr' with ⟨e', he', rfl⟩
  rcases correct_z_ok_mem_dt hc e' he' with ⟨e, he, hdt⟩
  rcases mem_trimmedEvents he with ⟨e0, he0, rfl⟩
  have hprior := mem_groupedEvents (selectedEvents_subset log start he0)
  have hlt : e0.last_movement_dt < start := (mem_priorEvents hprior.1).2
  have hdt0 : e'.last_movement_dt = e0.last_movement_dt := hdt
  show e'.last_movement_dt - start ≤ 0
  omega

/-- C9 witness: the non-positive elapsed-time property at a concrete
one-event log. -/
theorem c9_witness : exampleRow.last_movement_time ≤ 0 :=
  c9_elapsed_nonpos exampleLog 100000 [exampleRow] (by rfl) exampleRow (by decide)
